import Mathlib

/-!
Verification of the process-supervisor core of the Server-Maker repository
(`server_runner.py` and the status-derivation helper in `app.py`).

The Python source is shallowly embedded: pure text processing is translated to
functions over `List Char` / `String`, the mutable process handle becomes an
`Option PB` value threaded explicitly, and Python exceptions become `Except`
results.  Outcomes of operating-system primitives (process liveness probes,
pipe writes, waits, kills, directory removal) are modelled as boolean fields of
the process-behaviour record `PB`, so each code path of the source is a
reachable branch of the embedding.
-/

namespace ServerMaker

/-- Python `str.strip()` whitespace characters (ASCII range). -/
def isPyWs (c : Char) : Bool :=
  c == ' ' || c == '\t' || c == '\n' || c == '\r' || c == '\x0b' || c == '\x0c'

/-- Python `str.strip()` on a character list: drop whitespace from both ends. -/
def pyStripL (cs : List Char) : List Char :=
  ((cs.dropWhile isPyWs).reverse.dropWhile isPyWs).reverse

/-- Python `str.strip()` on a string. -/
def pyStripS (s : String) : String :=
  String.mk (pyStripL s.toList)

/-- Line-break characters recognised by Python `str.splitlines()`. -/
def isLineBreak (c : Char) : Bool :=
  c == '\n' || c == '\r' || c == '\x0b' || c == '\x0c' ||
  c == '\x1c' || c == '\x1d' || c == '\x1e' || c == '\x85' ||
  c == '\u2028' || c == '\u2029'

/-- Worker for `pySplitlines`; `acc` holds the current line reversed.  A
`"\r\n"` pair counts as a single line break. -/
def pySplitGo : List Char → List Char → List (List Char)
  | [], acc => if acc.isEmpty then [] else [acc.reverse]
  | [c], acc =>
    if isLineBreak c then [acc.reverse]
    else if (c :: acc).isEmpty then [] else [(c :: acc).reverse]
  | c1 :: c2 :: t, acc =>
    if isLineBreak c1 then
      if c1 == '\r' && c2 == '\n' then acc.reverse :: pySplitGo t []
      else acc.reverse :: pySplitGo (c2 :: t) []
    else pySplitGo (c2 :: t) (c1 :: acc)

/-- Python `str.splitlines()` over a character list. -/
def pySplitlines (cs : List Char) : List (List Char) :=
  pySplitGo cs []

/-- Python `str.lower()` (ASCII) over a character list. -/
def toLowerL (cs : List Char) : List Char :=
  cs.map Char.toLower

/-- Whether `s` begins with `pre` (character-exact). -/
def startsWithL : List Char → List Char → Bool
  | [], _ => true
  | _ :: _, [] => false
  | p :: ps, c :: cs => p == c && startsWithL ps cs

/-- Python substring test `sub in s` over character lists. -/
def containsL (sub : List Char) : List Char → Bool
  | [] => startsWithL sub []
  | c :: t => startsWithL sub (c :: t) || containsL sub t

/-- Characters matched by the regex class `[A-Za-z0-9]`. -/
def isAsciiAlnum (c : Char) : Bool :=
  (('a' ≤ c) && (c ≤ 'z')) || (('A' ≤ c) && (c ≤ 'Z')) || (('0' ≤ c) && (c ≤ '9'))

/-- Characters matched by the regex class `[A-Za-z0-9-]`. -/
def isDomChar (c : Char) : Bool :=
  isAsciiAlnum c || c == '-'

/-- Case-insensitive literal match: if `s` starts with `pat` up to ASCII case,
return the actually matched characters of `s` and the remainder. -/
def matchCI : List Char → List Char → Option (List Char × List Char)
  | [], s => some ([], s)
  | _ :: _, [] => none
  | p :: ps, c :: cs =>
    if p.toLower == c.toLower then
      match matchCI ps cs with
      | some (m, r) => some (c :: m, r)
      | none => none
    else none

/-- Digit-run tail for Python `int()`: digits with single interior underscores. -/
def pyDigitsGo : List Char → Nat → Option Nat
  | [], acc => some acc
  | '_' :: c :: t, acc =>
    if c.isDigit then pyDigitsGo t (acc * 10 + (c.toNat - 48)) else none
  | ['_'], _ => none
  | c :: t, acc =>
    if c.isDigit then pyDigitsGo t (acc * 10 + (c.toNat - 48)) else none

/-- Digit run for Python `int()`: must start with a digit. -/
def pyDigitsVal : List Char → Option Nat
  | [] => none
  | c :: t => if c.isDigit then pyDigitsGo t (c.toNat - 48) else none

/-- Python `int(s)` on an already clean (stripped) string: optional sign then
a digit run; `none` models `ValueError`. -/
def pyInt (s : String) : Option Int :=
  match s.toList with
  | '+' :: t => (pyDigitsVal t).map Int.ofNat
  | '-' :: t => (pyDigitsVal t).map (fun n => -(n : Int))
  | t => (pyDigitsVal t).map Int.ofNat

/-- Capacity of the log buffer (`MAX_LOG_LINES = 300` in `server_runner.py`). -/
def MAX_LOG_LINES : Nat := 300

/-- Behaviour of one child process for the modelled OS primitives: whether the
liveness probe `poll()` reports it alive, and whether each fallible primitive
used by the supervisor succeeds when invoked on it. -/
structure PB where
  pollAlive : Bool
  stdinWriteOk : Bool
  stopWaitOk : Bool
  killOk : Bool
  killWaitOk : Bool
  launchWaitOk : Bool

/-- `is_server_running()`: a handle exists and `poll()` shows it alive. -/
def is_server_running : Option PB → Bool
  | none => false
  | some p => p.pollAlive

/-- `stop_server(timeout)`: early-return when not running; otherwise attempt a
graceful stop, escalate to kill on failure, and in every path the `finally`
block clears the handle.  Returns the new handle and the log messages. -/
def stop_server (sp : Option PB) : Option PB × List String :=
  if is_server_running sp then
    match sp with
    | some p =>
      (none,
        if p.stdinWriteOk && p.stopWaitOk then
          ["Minecraft server stopped gracefully."]
        else if p.killOk && p.killWaitOk then
          ["Graceful stop failed; killing process...", "Minecraft server killed."]
        else
          ["Graceful stop failed; killing process...", "Error killing Minecraft process."])
    | none => (none, [])
  else (sp, ["No server process is running."])

/-- Python exceptions that can arise in the launch prologue. -/
inductive PyError where
  | attributeError
  | timeoutExpired
deriving DecidableEq

/-- `server_process.wait(timeout=30)`: calling `.wait` on `None` raises
`AttributeError`; on a process it either returns or raises `TimeoutExpired`. -/
def wait_timeout30 : Option PB → Except PyError Unit
  | none => .error .attributeError
  | some p => if p.launchWaitOk then .ok () else .error .timeoutExpired

/-- The prologue of `launch_server()` (lines 129-135): if a server is running,
call `stop_server()` and then `server_process.wait(timeout=30)` guarded only by
`except subprocess.TimeoutExpired`.  Any other exception propagates. -/
def launch_stop_phase (sp : Option PB) : Except PyError (Option PB × List String) :=
  if is_server_running sp then
    match wait_timeout30 (stop_server sp).1 with
    | .ok _ => .ok ((stop_server sp).1, (stop_server sp).2)
    | .error .timeoutExpired =>
        .ok ((stop_server sp).1,
             (stop_server sp).2 ++ ["Timeout while waiting for existing server to stop."])
    | .error e => .error e
  else .ok (sp, [])

/-- RAM-setting logic of `launch_server()` (lines 137-149) applied to the
optional content of `ram.txt`; returns the chosen gigabyte value and whether a
warning was logged. -/
def read_ram_setting : Option String → Int × Bool
  | none => (2, false)
  | some content =>
    match pyInt (pyStripS content) with
    | some v => if 1 ≤ v then (v, false) else (2, true)
    | none => (2, true)

/-- The argument vector passed to `subprocess.Popen` in `launch_server()`. -/
def launch_command (record : Option String) : List String :=
  ["java",
   "-Xmx" ++ toString (read_ram_setting record).1 ++ "G",
   "-Xms" ++ toString (read_ram_setting record).1 ++ "G",
   "-jar", "server.jar", "nogui"]

/-- The buffer append of `stream_logs` (lines 185-187): append, then evict the
oldest line when the length exceeds `MAX_LOG_LINES`. -/
def append_log (buf : List String) (line : String) : List String :=
  if (buf ++ [line]).length > MAX_LOG_LINES then (buf ++ [line]).drop 1
  else buf ++ [line]

/-- One iteration of the `stream_logs` loop (lines 182-187): strip the raw line
and append it to the bounded buffer. -/
def stream_logs_step (buf : List String) (line : String) : List String :=
  append_log buf (pyStripS line)

/-- `get_logs()`: newline-join of the buffer, or the fixed placeholder when the
buffer is empty. -/
def joinChars : List (List Char) → List Char
  | [] => []
  | [l] => l
  | l :: m :: rest => l ++ '\n' :: joinChars (m :: rest)

/-- `get_logs()` of `server_runner.py` as a function of the buffer. -/
def get_logs (buf : List String) : String :=
  if buf.isEmpty then "Server is starting or not running yet..."
  else String.mk (joinChars (buf.map String.toList))

/-- `delete_server()`: stop when running, then remove the directory tree when
present; `rmtree` may raise `OSError`.  Returns the new handle, whether a
removal was attempted, and the boolean result. -/
def delete_server (sp : Option PB) (dirExists rmtreeRaises : Bool) :
    Option PB × Bool × Bool :=
  if dirExists then
    if rmtreeRaises then
      ((if is_server_running sp then (stop_server sp).1 else sp), true, false)
    else
      ((if is_server_running sp then (stop_server sp).1 else sp), true, true)
  else ((if is_server_running sp then (stop_server sp).1 else sp), false, true)

/-- Lower-case ready marker scanned for by `get_playit_status`. -/
def tunnelMarker : List Char := "found minecraft java tunnel".toList

/-- Lower-case claim marker scanned for by `get_playit_status`. -/
def claimMarker : List Char := "claim visit".toList

/-- Literal part of the claim-URL regex `https://playit\.gg/mc/[A-Za-z0-9]+`. -/
def playitPat : List Char := "https://playit.gg/mc/".toList

/-- Literal suffix of the join-domain regex `[A-Za-z0-9-]+\.joinmc\.link`. -/
def joinmcSuffix : List Char := ".joinmc.link".toList

/-- Attempt of the claim-URL regex anchored at the current position: literal
prefix (case-insensitive) followed by a maximal nonempty alphanumeric run. -/
def playitAt (s : List Char) : Option (List Char) :=
  match matchCI playitPat s with
  | some (m, r) =>
    if (r.takeWhile isAsciiAlnum).isEmpty then none
    else some (m ++ r.takeWhile isAsciiAlnum)
  | none => none

/-- `re.search` of the claim-URL regex: leftmost anchored match. -/
def playitSearchL : List Char → Option (List Char)
  | [] => none
  | c :: t =>
    match playitAt (c :: t) with
    | some m => some m
    | none => playitSearchL t

/-- Domain part of the join-domain regex anchored at the current position:
maximal nonempty `[A-Za-z0-9-]` run followed by `.joinmc.link`
(case-insensitive); yields the capture group (actual characters, no scheme). -/
def domainAt (s : List Char) : Option (List Char) :=
  if (s.takeWhile isDomChar).isEmpty then none
  else
    match matchCI joinmcSuffix (s.drop (s.takeWhile isDomChar).length) with
    | some (m, _) => some (s.takeWhile isDomChar ++ m)
    | none => none

/-- Attempt of `(?:https?://)?([A-Za-z0-9-]+\.joinmc\.link)` anchored at the
current position.  When a scheme literal matches but no domain follows, the
schemeless alternative at the same position necessarily fails (the character
class run would end at `:` rather than `.`), so no further backtracking
arises. -/
def joinmcAt (s : List Char) : Option (List Char) :=
  match matchCI "https://".toList s with
  | some (_, r) => domainAt r
  | none =>
    match matchCI "http://".toList s with
    | some (_, r) => domainAt r
    | none => domainAt s

/-- `re.search` of the join-domain regex: leftmost anchored match, returning
capture group 1. -/
def joinmcSearchL : List Char → Option (List Char)
  | [] => none
  | c :: t =>
    match joinmcAt (c :: t) with
    | some m => some m
    | none => joinmcSearchL t

/-- The claim-marker branch of the scan loop (lines 294-297): on a marker line
with a regex match the recorded claim URL is overwritten, otherwise kept. -/
def claimCheck (l : String) (claim : Option String) : Option String :=
  if containsL claimMarker (toLowerL l.toList) then
    match playitSearchL l.toList with
    | some u => some (String.mk u)
    | none => claim
  else claim

/-- The newest-to-oldest scan loop of `get_playit_status` (lines 280-297); the
argument list is already in newest-first order. -/
def scanLoop : List String → Option String → Bool × Option String × Option String
  | [], claim => (false, claim, none)
  | l :: rest, claim =>
    if containsL tunnelMarker (toLowerL l.toList) then
      match joinmcSearchL l.toList with
      | some d => (true, claim, some (String.mk d))
      | none => scanLoop rest (claimCheck l claim)
    else scanLoop rest (claimCheck l claim)

/-- `get_playit_status()` as a function of the buffer (oldest line first):
scan the up-to-`MAX_LOG_LINES` most recent lines, newest first. -/
def get_playit_status (buf : List String) : Bool × Option String × Option String :=
  scanLoop (buf.reverse.take MAX_LOG_LINES) none

/-- A line on which the ready branch of the scan fires: contains the ready
marker and the join-domain regex matches. -/
def isReadyLine (l : String) : Bool :=
  containsL tunnelMarker (toLowerL l.toList) && (joinmcSearchL l.toList).isSome

/-- A line on which the claim branch of the scan overwrites the claim URL. -/
def isClaimLine (l : String) : Bool :=
  containsL claimMarker (toLowerL l.toList) && (playitSearchL l.toList).isSome

/-- Lower-case startup-complete marker used by `get_server_state` in `app.py`. -/
def doneMarker : List Char := "done (".toList

/-- `get_server_state()` of `app.py` as a function of directory existence,
process liveness and the buffer. -/
def get_server_state (dirExists running : Bool) (buf : List String) : String :=
  if dirExists = false then "offline"
  else if running = false then "offline"
  else if (pySplitlines (get_logs buf).toList).reverse.any
            (fun l => containsL doneMarker (toLowerL l)) then "online"
  else "booting"

/-- Trailing-whitespace-only trim, as the specification text describes the
pump's line handling (`Modelled from the spec:` the spec's "trim trailing
whitespace" wording, for comparison with the code's `strip()`). -/
def spec_trim_trailing (s : String) : String :=
  String.mk (s.toList.reverse.dropWhile isPyWs).reverse

/-! Helper lemmas -/

/-- Whenever a process is alive at entry, `stop_server` returns with the
handle cleared, on every branch of its try/except/finally. -/
theorem stop_server_fst_eq_none (sp : Option PB) (h : is_server_running sp = true) :
    (stop_server sp).1 = none := by
  match sp with
  | none => simp [is_server_running] at h
  | some p => simp [stop_server, h]

/-- A line on which the claim branch does not fire leaves the recorded claim
URL unchanged. -/
theorem claimCheck_of_not_claimLine (l : String) (c : Option String)
    (h : isClaimLine l = false) : claimCheck l c = c := by
  unfold claimCheck
  cases hc : containsL claimMarker (toLowerL l.toList) with
  | false => rw [if_neg (by simp)]
  | true =>
    rw [if_pos rfl]
    cases hp : playitSearchL l.toList with
    | none => rfl
    | some u =>
      exfalso
      unfold isClaimLine at h
      rw [hc, hp] at h
      simp at h

/-- A line on which the claim branch fires overwrites the recorded claim URL
with its own match. -/
theorem claimCheck_of_match (l : String) (c : Option String) (u : List Char)
    (hm : containsL claimMarker (toLowerL l.toList) = true)
    (hu : playitSearchL l.toList = some u) :
    claimCheck l c = some (String.mk u) := by
  unfold claimCheck
  rw [hm, if_pos rfl, hu]

/-- Folding the claim branch over lines none of which fire leaves the claim
URL unchanged. -/
theorem foldl_claimCheck_const (ls : List String) (c : Option String)
    (h : ∀ l ∈ ls, isClaimLine l = false) :
    List.foldl (fun c l => claimCheck l c) c ls = c := by
  induction ls generalizing c with
  | nil => rfl
  | cons l rest ih =>
    rw [List.foldl_cons, claimCheck_of_not_claimLine l c (h l (by simp))]
    exact ih c fun x hx => h x (by simp [hx])

/-- On a scan list with no effective ready line, the loop never breaks and
returns `false`, the folded claim URL, and no domain. -/
theorem scanLoop_no_ready (ls : List String) (c : Option String)
    (h : ∀ l ∈ ls, isReadyLine l = false) :
    scanLoop ls c = (false, List.foldl (fun c l => claimCheck l c) c ls, none) := by
  induction ls generalizing c with
  | nil => rfl
  | cons l rest ih =>
    have hrest : ∀ x ∈ rest, isReadyLine x = false := fun x hx => h x (by simp [hx])
    unfold scanLoop
    cases hm : containsL tunnelMarker (toLowerL l.toList) with
    | false =>
      rw [if_neg (by simp), List.foldl_cons]
      exact ih (claimCheck l c) hrest
    | true =>
      rw [if_pos rfl]
      cases hj : joinmcSearchL l.toList with
      | some d =>
        exfalso
        have hl := h l (by simp)
        unfold isReadyLine at hl
        rw [hm, hj] at hl
        simp at hl
      | none =>
        rw [List.foldl_cons]
        exact ih (claimCheck l c) hrest

/-- Scanned lines on which neither branch fires can be dropped from the front
of the scan list. -/
theorem scanLoop_skip (xs rest : List String) (c : Option String)
    (h : ∀ l ∈ xs, isReadyLine l = false ∧ isClaimLine l = false) :
    scanLoop (xs ++ rest) c = scanLoop rest c := by
  induction xs with
  | nil => rfl
  | cons x xs' ih =>
    have hx := h x (by simp)
    have hxs : ∀ l ∈ xs', isReadyLine l = false ∧ isClaimLine l = false :=
      fun l hl => h l (by simp [hl])
    rw [List.cons_append]
    conv_lhs => unfold scanLoop
    cases hm : containsL tunnelMarker (toLowerL x.toList) with
    | false =>
      rw [if_neg (by simp), claimCheck_of_not_claimLine x c hx.2]
      exact ih hxs
    | true =>
      rw [if_pos rfl]
      cases hj : joinmcSearchL x.toList with
      | some d =>
        exfalso
        have h1 := hx.1
        unfold isReadyLine at h1
        rw [hm, hj] at h1
        simp at h1
      | none =>
        rw [claimCheck_of_not_claimLine x c hx.2]
        exact ih hxs

/-- A ready line at the head of the scan list breaks immediately with the
claim URL recorded so far and its own domain. -/
theorem scanLoop_ready (l0 : String) (rest : List String) (c : Option String)
    (d : List Char)
    (hm : containsL tunnelMarker (toLowerL l0.toList) = true)
    (hd : joinmcSearchL l0.toList = some d) :
    scanLoop (l0 :: rest) c = (true, c, some (String.mk d)) := by
  unfold scanLoop
  rw [hm, if_pos rfl, hd]

/-! Claim theorems -/

/-- C6: for every execution of `stop_server` in which a process is alive at
entry, the process handle is cleared (set to `none`) by the time it returns,
on every path: graceful exit, escalation to kill, and kill failure. -/
theorem stop_server_clears_handle (sp : Option PB) (h : is_server_running sp = true) :
    (stop_server sp).1 = none :=
  stop_server_fst_eq_none sp h

/-- Witness for C6: a live process whose graceful stop and forced kill both
fail still has its handle cleared. -/
theorem stop_server_clears_handle_witness :
    is_server_running (some ⟨true, false, false, false, false, true⟩) = true ∧
      (stop_server (some ⟨true, false, false, false, false, true⟩)).1 = none :=
  ⟨rfl, stop_server_clears_handle (some ⟨true, false, false, false, false, true⟩) rfl⟩

/-- C1 (code bug): when a process is alive at entry, `launch_server`'s
stop-and-wait prologue always raises `AttributeError` to the caller, because
`stop_server` has already cleared `server_process` to `None` and the guard
catches only `TimeoutExpired`; no 30-unit wait happens. -/
theorem launch_prologue_raises_attribute_error (p : PB) (h : p.pollAlive = true) :
    launch_stop_phase (some p) = .error .attributeError := by
  have h1 : is_server_running (some p) = true := h
  have h2 : (stop_server (some p)).1 = none := stop_server_fst_eq_none _ h1
  simp [launch_stop_phase, h1, h2, wait_timeout30]

/-- Witness for C1: a fully well-behaved live process still makes the launch
prologue raise `AttributeError`. -/
theorem launch_prologue_raises_attribute_error_witness :
    launch_stop_phase (some ⟨true, true, true, true, true, true⟩) =
      .error .attributeError :=
  launch_prologue_raises_attribute_error ⟨true, true, true, true, true, true⟩ rfl

/-- C10: when no process is running, `delete_server` with an absent working
directory performs no removal and returns `true`; and it returns `false` only
when the recursive removal itself raised. -/
theorem delete_server_policy (sp : Option PB) (dE rR : Bool)
    (h : is_server_running sp = false) :
    (dE = false → delete_server sp dE rR = (sp, false, true)) ∧
      ((delete_server sp dE rR).2.2 = false → dE = true ∧ rR = true) := by
  cases dE <;> cases rR <;> simp [delete_server, h]

/-- Witness for C10: no handle, absent directory. -/
theorem delete_server_policy_witness :
    delete_server none false true = (none, false, true) :=
  (delete_server_policy none false true rfl).1 rfl

/-- Folding bounded appends over any starting buffer of legal length keeps
exactly the `MAX_LOG_LINES` most recent lines. -/
theorem foldl_append_log (lines : List String) :
    ∀ buf : List String, buf.length ≤ MAX_LOG_LINES →
      List.foldl append_log buf lines =
        (buf ++ lines).drop (buf.length + lines.length - MAX_LOG_LINES) := by
  induction lines with
  | nil =>
    intro buf h
    simp [Nat.sub_eq_zero_of_le h]
  | cons l ls ih =>
    intro buf h
    rcases Nat.lt_or_ge buf.length MAX_LOG_LINES with hlt | hge
    · have hcond : ¬ ((buf ++ [l]).length > MAX_LOG_LINES) := by
        simp only [List.length_append, List.length_cons, List.length_nil]
        omega
      have hstep : append_log buf l = buf ++ [l] := by
        simp only [append_log, if_neg hcond]
      have hlen : (buf ++ [l]).length ≤ MAX_LOG_LINES := by
        simp only [List.length_append, List.length_cons, List.length_nil]
        omega
      rw [List.foldl_cons, hstep, ih (buf ++ [l]) hlen, List.append_assoc]
      simp only [List.singleton_append, List.length_append, List.length_cons,
        List.length_nil, Nat.zero_add]
      rw [show buf.length + 1 + ls.length - MAX_LOG_LINES
            = buf.length + (ls.length + 1) - MAX_LOG_LINES from by omega]
    · have heq : buf.length = MAX_LOG_LINES := Nat.le_antisymm h hge
      cases buf with
      | nil => simp [MAX_LOG_LINES] at heq
      | cons b0 bt =>
        have hbt : bt.length + 1 = MAX_LOG_LINES := by simpa using heq
        have hcond : ((b0 :: bt) ++ [l]).length > MAX_LOG_LINES := by
          simp only [List.cons_append, List.length_append, List.length_cons,
            List.length_nil]
          omega
        have hstep : append_log (b0 :: bt) l = bt ++ [l] := by
          simp only [append_log, if_pos hcond]
          rfl
        have hlen : (bt ++ [l]).length ≤ MAX_LOG_LINES := by
          simp only [List.length_append, List.length_cons, List.length_nil]
          omega
        rw [List.foldl_cons, hstep, ih (bt ++ [l]) hlen, List.append_assoc]
        simp only [List.singleton_append, List.length_append, List.length_cons,
          List.length_nil, List.cons_append, List.nil_append, Nat.zero_add]
        rw [show bt.length + 1 + (ls.length + 1) - MAX_LOG_LINES = ls.length + 1
              from by omega,
            List.drop_succ_cons,
            show bt.length + 1 + ls.length - MAX_LOG_LINES = ls.length from by omega]

/-- C3: starting from a cleared buffer, after every sequence of appends the
buffer length never exceeds the 300-line capacity, and the buffer holds
exactly the most recent `MAX_LOG_LINES` appended lines in append order
(strict FIFO eviction of the oldest line). -/
theorem log_buffer_fifo (lines : List String) :
    (List.foldl append_log [] lines).length ≤ MAX_LOG_LINES ∧
      List.foldl append_log [] lines =
        lines.drop (lines.length - MAX_LOG_LINES) := by
  have h := foldl_append_log lines [] (by simp)
  simp at h
  refine ⟨?_, h⟩
  rw [h]
  simp
  omega

/-- C7: when the most recent line matching either marker is a ready-marker
line whose join-domain regex yields `d`, `get_playit_status` returns
`(true, none, d)` regardless of any older lines, and the scan stops at that
line (the result equals the result on the buffer truncated at that line). -/
theorem tunnel_ready_line_wins (older newer : List String) (l0 : String)
    (d : List Char)
    (hlen : (older ++ l0 :: newer).length ≤ MAX_LOG_LINES)
    (hm : containsL tunnelMarker (toLowerL l0.toList) = true)
    (hd : joinmcSearchL l0.toList = some d)
    (hnew : ∀ l ∈ newer, isReadyLine l = false ∧ isClaimLine l = false) :
    get_playit_status (older ++ l0 :: newer) = (true, none, some (String.mk d)) ∧
      get_playit_status (l0 :: newer) = (true, none, some (String.mk d)) := by
  have hnewrev : ∀ l ∈ newer.reverse, isReadyLine l = false ∧ isClaimLine l = false :=
    fun l hl => hnew l (List.mem_reverse.mp hl)
  constructor
  · unfold get_playit_status
    rw [List.take_of_length_le (by rw [List.length_reverse]; exact hlen)]
    rw [List.reverse_append, List.reverse_cons, List.append_assoc,
      List.singleton_append]
    rw [scanLoop_skip newer.reverse (l0 :: older.reverse) none hnewrev]
    exact scanLoop_ready l0 older.reverse none d hm hd
  · unfold get_playit_status
    have hlen2 : (l0 :: newer).length ≤ MAX_LOG_LINES := by
      have := hlen
      simp only [List.length_append, List.length_cons] at this ⊢
      omega
    rw [List.take_of_length_le (by rw [List.length_reverse]; exact hlen2)]
    rw [List.reverse_cons]
    rw [scanLoop_skip newer.reverse [l0] none hnewrev]
    exact scanLoop_ready l0 [] none d hm hd

/-- Witness for C7: a newer-most ready line with an `https://` scheme beats an
older claim line, and the returned domain is scheme-stripped. -/
theorem tunnel_ready_line_wins_witness :
    get_playit_status
      ["failed to exchange, to claim visit: https://playit.gg/mc/AB12",
       "found Minecraft Java tunnel: https://foo.joinmc.link"] =
      (true, none, some "foo.joinmc.link") :=
  (tunnel_ready_line_wins
    ["failed to exchange, to claim visit: https://playit.gg/mc/AB12"] []
    "found Minecraft Java tunnel: https://foo.joinmc.link"
    "foo.joinmc.link".toList (by decide) rfl rfl (by intro l hl; cases hl)).1

/-- C2 counterexample: a buffer with no ready-marker line and two distinct
claim lines; the code returns the URL of the OLDEST claim line, not of the
most recent one as the claim states. -/
theorem claim_url_most_recent_counterexample :
    get_playit_status
      ["failed to exchange, to claim visit: https://playit.gg/mc/OLDAAA",
       "failed to exchange, to claim visit: https://playit.gg/mc/NEWBBB"] =
      (false, some "https://playit.gg/mc/OLDAAA", none) ∧
    containsL tunnelMarker
      (toLowerL "failed to exchange, to claim visit: https://playit.gg/mc/OLDAAA".toList)
      = false ∧
    containsL tunnelMarker
      (toLowerL "failed to exchange, to claim visit: https://playit.gg/mc/NEWBBB".toList)
      = false ∧
    ("https://playit.gg/mc/OLDAAA" : String) ≠ "https://playit.gg/mc/NEWBBB" :=
  ⟨rfl, rfl, rfl, by decide⟩

/-- C2 amended: for every buffer with no ready-marker line, the claim URL
returned is the one extracted from the OLDEST line on which the claim branch
fires (each newer match is overwritten by older ones during the
newest-to-oldest scan), with ready `false` and no join domain. -/
theorem claim_url_oldest_wins (pre post : List String) (l0 : String)
    (hlen : (pre ++ l0 :: post).length ≤ MAX_LOG_LINES)
    (hnoready : ∀ l ∈ pre ++ l0 :: post,
      containsL tunnelMarker (toLowerL l.toList) = false)
    (hclaim : isClaimLine l0 = true)
    (hpre : ∀ l ∈ pre, isClaimLine l = false) :
    get_playit_status (pre ++ l0 :: post) =
      (false, (playitSearchL l0.toList).map String.mk, none) := by
  have hnr : ∀ l ∈ (pre ++ l0 :: post).reverse, isReadyLine l = false := by
    intro l hl
    unfold isReadyLine
    rw [hnoready l (List.mem_reverse.mp hl)]
    rfl
  obtain ⟨hm, u, hu⟩ : containsL claimMarker (toLowerL l0.toList) = true ∧
      ∃ u, playitSearchL l0.toList = some u := by
    unfold isClaimLine at hclaim
    cases hcm : containsL claimMarker (toLowerL l0.toList) with
    | false => rw [hcm] at hclaim; simp at hclaim
    | true =>
      cases hp : playitSearchL l0.toList with
      | none => rw [hcm, hp] at hclaim; simp at hclaim
      | some u => exact ⟨rfl, u, rfl⟩
  unfold get_playit_status
  rw [List.take_of_length_le (by rw [List.length_reverse]; exact hlen)]
  rw [scanLoop_no_ready _ none hnr]
  rw [List.reverse_append, List.reverse_cons, List.append_assoc,
    List.singleton_append]
  rw [List.foldl_append, List.foldl_cons]
  rw [claimCheck_of_match l0 _ u hm hu]
  rw [foldl_claimCheck_const pre.reverse _ (fun l hl => hpre l (List.mem_reverse.mp hl))]
  rw [hu]
  rfl

/-- Witness for C2 amended: with two distinct claim lines and no ready line,
the oldest claim line's URL is returned. -/
theorem claim_url_oldest_wins_witness :
    get_playit_status
      ["starting playit plugin",
       "failed to exchange, to claim visit: https://playit.gg/mc/OLDAAA",
       "failed to exchange, to claim visit: https://playit.gg/mc/NEWBBB"] =
      (false, some "https://playit.gg/mc/OLDAAA", none) :=
  claim_url_oldest_wins ["starting playit plugin"]
    ["failed to exchange, to claim visit: https://playit.gg/mc/NEWBBB"]
    "failed to exchange, to claim visit: https://playit.gg/mc/OLDAAA"
    (by decide) (by decide) rfl (by decide)

/-- C4: the readiness state is `"offline"` whenever the working directory does
not exist or the process is not alive, regardless of the buffer contents. -/
theorem offline_overrides (dirExists running : Bool) (buf : List String)
    (h : dirExists = false ∨ running = false) :
    get_server_state dirExists running buf = "offline" := by
  rcases h with h | h
  · simp [get_server_state, h]
  · cases dirExists <;> simp [get_server_state, h]

/-- Witness for C4: a stale `"Done ("` line does not yield `"online"` while
the directory is absent and the process is alive. -/
theorem offline_overrides_witness :
    get_server_state false true ["[Server] Done (12.3s)!"] = "offline" :=
  offline_overrides false true ["[Server] Done (12.3s)!"] (Or.inl rfl)

/-- Scanning mapped character lists is scanning the underlying strings. -/
theorem any_map_toList (bs : List String) (f : List Char → Bool) :
    (bs.map String.toList).any f = bs.any (fun s => f s.toList) := by
  induction bs with
  | nil => rfl
  | cons b bs ih => rw [List.map_cons, List.any_cons, List.any_cons, ih]

/-- A match of a pattern not containing `b` cannot look past an occurrence of
`b`: prefix matching stops at `b` whether or not the text continues. -/
theorem startsWithL_append_stop (m : List Char) :
    ∀ (u v : List Char) (b : Char), b ∉ m →
      startsWithL m (u ++ b :: v) = startsWithL m u := by
  induction m with
  | nil => intro u v b _; rfl
  | cons mh mt ih =>
    intro u v b hb
    cases u with
    | nil =>
      have hne : (mh == b) = false := by
        rw [beq_eq_false_iff_ne]
        intro he
        exact hb (he ▸ List.mem_cons_self mh mt)
      show ((mh == b) && startsWithL mt v) = false
      rw [hne, Bool.false_and]
    | cons x u' =>
      show ((mh == x) && startsWithL mt (u' ++ b :: v))
          = ((mh == x) && startsWithL mt u')
      rw [ih u' v b (fun hm => hb (List.mem_cons_of_mem mh hm))]

/-- An occurrence of a pattern not containing `b` lies entirely on one side of
an occurrence of `b`. -/
theorem containsL_append_stop (m : List Char) (u v : List Char) (b : Char)
    (hb : b ∉ m) :
    containsL m (u ++ b :: v) = (containsL m u || containsL m v) := by
  induction u with
  | nil =>
    show (startsWithL m (b :: v) || containsL m v)
        = (startsWithL m [] || containsL m v)
    rw [show startsWithL m (b :: v) = startsWithL m []
          from startsWithL_append_stop m [] v b hb]
  | cons x u' ih =>
    show (startsWithL m (x :: (u' ++ b :: v)) || containsL m (u' ++ b :: v))
        = ((startsWithL m (x :: u') || containsL m u') || containsL m v)
    rw [ih,
        show startsWithL m (x :: (u' ++ b :: v)) = startsWithL m (x :: u')
          from startsWithL_append_stop m (x :: u') v b hb,
        Bool.or_assoc]

/-- ASCII lowering leaves every line-break character unchanged. -/
theorem toLower_of_break (c : Char) (h : isLineBreak c = true) :
    c.toLower = c := by
  unfold isLineBreak at h
  simp only [Bool.or_eq_true, beq_iff_eq] at h
  rcases h with ((((((((h | h) | h) | h) | h) | h) | h) | h) | h) | h <;>
    subst h <;> rfl

/-- No character of the startup-complete marker is a line break. -/
theorem done_marker_no_break : ∀ x ∈ doneMarker, isLineBreak x = false := by
  decide

/-- A line-break character is not a character of the marker. -/
theorem break_not_mem_done (b : Char) (hb : isLineBreak b = true) :
    b ∉ doneMarker := by
  intro hm
  rw [done_marker_no_break b hm] at hb
  exact Bool.false_ne_true hb

/-- A case-insensitive marker occurrence lies entirely on one side of a
line-break character. -/
theorem done_split_at_break (u v : List Char) (b : Char)
    (hb : isLineBreak b = true) :
    containsL doneMarker (toLowerL (u ++ b :: v))
      = (containsL doneMarker (toLowerL u) || containsL doneMarker (toLowerL v)) := by
  unfold toLowerL
  rw [List.map_append, List.map_cons, toLower_of_break b hb]
  exact containsL_append_stop doneMarker _ _ b (break_not_mem_done b hb)

/-- A leading line-break character never carries a marker occurrence. -/
theorem done_cons_break (v : List Char) (b : Char) (hb : isLineBreak b = true) :
    containsL doneMarker (toLowerL (b :: v))
      = containsL doneMarker (toLowerL v) := by
  have h := done_split_at_break [] v b hb
  rw [List.nil_append] at h
  rw [h, show containsL doneMarker (toLowerL ([] : List Char)) = false from rfl,
      Bool.false_or]

/-- Splitting never creates or destroys an occurrence of the marker: some
chunk of the split contains it iff the unsplit text does. -/
theorem pySplitGo_any_done (cs acc : List Char) :
    (pySplitGo cs acc).any (fun l => containsL doneMarker (toLowerL l))
      = containsL doneMarker (toLowerL (acc.reverse ++ cs)) := by
  induction cs, acc using pySplitGo.induct with
  | case1 acc hacc =>
    cases acc with
    | nil => rfl
    | cons a as => simp at hacc
  | case2 acc hacc =>
    simp only [pySplitGo]
    rw [if_neg hacc, List.append_nil]
    show (containsL doneMarker (toLowerL acc.reverse) || false)
        = containsL doneMarker (toLowerL acc.reverse)
    rw [Bool.or_false]
  | case3 c acc h =>
    simp only [pySplitGo]
    rw [if_pos h, done_split_at_break acc.reverse [] c h]
    show (containsL doneMarker (toLowerL acc.reverse) || false)
        = (containsL doneMarker (toLowerL acc.reverse)
            || containsL doneMarker (toLowerL ([] : List Char)))
    rfl
  | case4 c acc h h2 => simp at h2
  | case5 c acc h h2 =>
    simp only [pySplitGo]
    rw [if_neg h, if_neg h2, List.reverse_cons]
    show (containsL doneMarker (toLowerL (acc.reverse ++ [c])) || false)
        = containsL doneMarker (toLowerL (acc.reverse ++ [c]))
    rw [Bool.or_false]
  | case6 c1 c2 t acc h hp ih =>
    obtain ⟨hc1, hc2⟩ : c1 = '\r' ∧ c2 = '\n' := by
      simpa [Bool.and_eq_true, beq_iff_eq] using hp
    subst hc1
    subst hc2
    simp only [pySplitGo]
    rw [if_pos h, if_pos hp, List.any_cons, ih]
    simp only [List.reverse_nil, List.nil_append]
    rw [done_split_at_break acc.reverse ('\n' :: t) '\r' rfl,
        done_cons_break t '\n' rfl]
  | case7 c1 c2 t acc h hp ih =>
    simp only [pySplitGo]
    rw [if_pos h, if_neg hp, List.any_cons, ih]
    simp only [List.reverse_nil, List.nil_append]
    rw [done_split_at_break acc.reverse (c2 :: t) c1 h]
  | case8 c1 c2 t acc h ih =>
    simp only [pySplitGo]
    rw [if_neg h, ih, List.reverse_cons, List.append_assoc, List.singleton_append]

/-- `splitlines` preserves marker containment: some line of the split contains
the marker iff the text does. -/
theorem pySplitlines_any_done (cs : List Char) :
    (pySplitlines cs).any (fun l => containsL doneMarker (toLowerL l))
      = containsL doneMarker (toLowerL cs) := by
  unfold pySplitlines
  rw [pySplitGo_any_done cs []]
  rfl

/-- The newline-join contains the marker iff some joined line does: the marker
contains no newline, so an occurrence cannot span a separator. -/
theorem joinChars_any_done (L : List (List Char)) :
    containsL doneMarker (toLowerL (joinChars L))
      = L.any (fun l => containsL doneMarker (toLowerL l)) := by
  induction L with
  | nil => rfl
  | cons l L' ih =>
    cases L' with
    | nil =>
      show containsL doneMarker (toLowerL l)
          = (containsL doneMarker (toLowerL l) || false)
      rw [Bool.or_false]
    | cons m rest =>
      show containsL doneMarker (toLowerL (l ++ '\n' :: joinChars (m :: rest))) = _
      rw [done_split_at_break l (joinChars (m :: rest)) '\n' rfl, ih]
      rfl

/-- The scan performed by `get_server_state` over the exported log text agrees
with a scan of the buffer lines, for every buffer. -/
theorem state_scan_eq_any (buf : List String) :
    ((pySplitlines (get_logs buf).toList).reverse.any
        (fun l => containsL doneMarker (toLowerL l)))
      = buf.any (fun l => containsL doneMarker (toLowerL l.toList)) := by
  rw [List.any_reverse]
  cases buf with
  | nil => rfl
  | cons b bs =>
    rw [show (get_logs (b :: bs)).toList
          = joinChars ((b :: bs).map String.toList) from rfl,
        pySplitlines_any_done, joinChars_any_done, any_map_toList]

/-- C5 counterexample: with the working directory absent, an alive process and
a buffered startup-complete line, the state is `"offline"`, not `"online"` as
the claim's unconditional iff demands. -/
theorem online_iff_counterexample :
    get_server_state false true ["Done (5.0s)! For help, type help"] = "offline" ∧
    containsL doneMarker
      (toLowerL "Done (5.0s)! For help, type help".toList) = true ∧
    ("offline" : String) ≠ "online" :=
  ⟨rfl, rfl, by decide⟩

/-- C5 amended: when the working directory exists, the state is `"online"`
iff the process is alive and some buffered line case-insensitively contains
`"done ("`; when the process is alive and no such line exists, the state is
`"booting"`. -/
theorem online_iff_done (running : Bool) (buf : List String) :
    (get_server_state true running buf = "online" ↔
      (running = true ∧ ∃ l ∈ buf, containsL doneMarker (toLowerL l.toList) = true)) ∧
    (running = true →
      (∀ l ∈ buf, containsL doneMarker (toLowerL l.toList) = false) →
      get_server_state true running buf = "booting") := by
  unfold get_server_state
  rw [if_neg (by simp)]
  cases running with
  | false =>
    rw [if_pos rfl]
    refine ⟨⟨fun h => absurd h (by decide), ?_⟩, fun h => by simp at h⟩
    rintro ⟨h, -⟩
    simp at h
  | true =>
    rw [if_neg (by simp)]
    rw [state_scan_eq_any buf]
    cases hany : buf.any (fun l => containsL doneMarker (toLowerL l.toList)) with
    | true =>
      rw [if_pos rfl]
      obtain ⟨l, hl, hc⟩ := List.any_eq_true.mp hany
      refine ⟨⟨fun _ => ⟨rfl, Exists.intro l ⟨hl, hc⟩⟩, fun _ => rfl⟩, ?_⟩
      intro _ hnone
      rw [hnone l hl] at hc
      simp at hc
    | false =>
      rw [if_neg (by simp)]
      refine ⟨⟨fun h => absurd h (by decide), ?_⟩, fun _ _ => rfl⟩
      rintro ⟨-, l, hl, hc⟩
      have hmem : buf.any (fun l => containsL doneMarker (toLowerL l.toList)) = true :=
        List.any_eq_true.mpr ⟨l, hl, hc⟩
      rw [hany] at hmem
      simp at hmem

/-- Witness for C5 amended: with the directory present and the process alive,
a buffered `Done (` line yields `"online"`. -/
theorem online_iff_done_witness :
    get_server_state true true ["Starting...", "[Server] Done (12.3s)!"] = "online" := by
  have h := online_iff_done true ["Starting...", "[Server] Done (12.3s)!"]
  exact h.1.mpr ⟨rfl, "[Server] Done (12.3s)!", by simp, rfl⟩

/-- The first element surviving `dropWhile` does not satisfy the predicate. -/
theorem head?_dropWhile_false {α : Type} (p : α → Bool) (l : List α) (c : α)
    (h : (l.dropWhile p).head? = some c) : p c = false := by
  induction l with
  | nil => simp at h
  | cons x t ih =>
    rw [List.dropWhile_cons] at h
    by_cases hx : p x = true
    · rw [if_pos hx] at h
      exact ih h
    · rw [if_neg hx] at h
      simp only [List.head?_cons, Option.some.injEq] at h
      subst h
      exact Bool.not_eq_true _ |>.mp hx

/-- `dropWhile` keeps the last element of the list when its result is
nonempty. -/
theorem getLast?_dropWhile {α : Type} (p : α → Bool) (l : List α)
    (h : l.dropWhile p ≠ []) : (l.dropWhile p).getLast? = l.getLast? := by
  induction l with
  | nil => simp at h
  | cons x t ih =>
    rw [List.dropWhile_cons]
    by_cases hx : p x = true
    · rw [if_pos hx]
      rw [List.dropWhile_cons, if_pos hx] at h
      have ht : t ≠ [] := by
        intro he
        rw [he] at h
        simp at h
      rw [ih h]
      cases t with
      | nil => exact absurd rfl ht
      | cons y t' => rfl
    · rw [if_neg hx]

/-- C8 amended: the line appended by the output pump is the read line with
BOTH leading and trailing whitespace trimmed: the read line decomposes as
whitespace, the appended core (with no whitespace at either end), and
whitespace. -/
theorem pump_strips_both_ends (buf : List String) (line : String) :
    ∃ pre post : List Char,
      line.toList = pre ++ (pyStripS line).toList ++ post ∧
      (∀ c ∈ pre, isPyWs c = true) ∧
      (∀ c ∈ post, isPyWs c = true) ∧
      (∀ c, (pyStripS line).toList.head? = some c → isPyWs c = false) ∧
      (∀ c, (pyStripS line).toList.getLast? = some c → isPyWs c = false) ∧
      stream_logs_step buf line = append_log buf (pyStripS line) := by
  refine ⟨line.toList.takeWhile isPyWs,
    ((line.toList.dropWhile isPyWs).reverse.takeWhile isPyWs).reverse, ?_, ?_, ?_, ?_, ?_, rfl⟩
  · have h1 : line.toList.takeWhile isPyWs ++ line.toList.dropWhile isPyWs
        = line.toList := List.takeWhile_append_dropWhile isPyWs line.toList
    have h2 : (line.toList.dropWhile isPyWs).reverse.takeWhile isPyWs ++
        (line.toList.dropWhile isPyWs).reverse.dropWhile isPyWs
        = (line.toList.dropWhile isPyWs).reverse :=
      List.takeWhile_append_dropWhile isPyWs (line.toList.dropWhile isPyWs).reverse
    have h3 : line.toList.dropWhile isPyWs
        = ((line.toList.dropWhile isPyWs).reverse.dropWhile isPyWs).reverse ++
          ((line.toList.dropWhile isPyWs).reverse.takeWhile isPyWs).reverse := by
      conv_lhs => rw [← List.reverse_reverse (line.toList.dropWhile isPyWs), ← h2]
      rw [List.reverse_append]
    conv_lhs => rw [← h1, h3]
    rw [List.append_assoc]
    rfl
  · intro c hc
    exact List.mem_takeWhile_imp hc
  · intro c hc
    exact List.mem_takeWhile_imp (List.mem_reverse.mp hc)
  · intro c hc
    have hc' : ((line.toList.dropWhile isPyWs).reverse.dropWhile isPyWs).reverse.head?
        = some c := hc
    rw [List.head?_reverse] at hc'
    have hne : (line.toList.dropWhile isPyWs).reverse.dropWhile isPyWs ≠ [] := by
      intro he
      rw [he] at hc'
      simp at hc'
    rw [getLast?_dropWhile _ _ hne, List.getLast?_reverse] at hc'
    exact head?_dropWhile_false isPyWs line.toList c hc'
  · intro c hc
    have hc' : ((line.toList.dropWhile isPyWs).reverse.dropWhile isPyWs).reverse.getLast?
        = some c := hc
    rw [List.getLast?_reverse] at hc'
    exact head?_dropWhile_false isPyWs _ c hc'

/-- C8 counterexample: a line with leading whitespace loses it, contrary to
the claim that only trailing whitespace is trimmed and leading content is
kept. -/
theorem pump_trim_trailing_counterexample :
    stream_logs_step [] "  hello  " = ["hello"] ∧
    spec_trim_trailing "  hello  " = "  hello" ∧
    ("hello" : String) ≠ "  hello" :=
  ⟨rfl, rfl, by decide⟩

/-- C9: the RAM record determines the heap flags: an integer record of at
least 1 yields exactly that many GB in both `-Xmx` and `-Xms`; an absent
record yields 2 GB without a warning; a non-numeric record or one less
than 1 yields 2 GB with a warning. -/
theorem ram_policy (content : String) :
    read_ram_setting none = (2, false) ∧
    (∀ n : Int, pyInt (pyStripS content) = some n → 1 ≤ n →
      read_ram_setting (some content) = (n, false) ∧
      launch_command (some content) =
        ["java", "-Xmx" ++ toString n ++ "G", "-Xms" ++ toString n ++ "G",
         "-jar", "server.jar", "nogui"]) ∧
    (∀ n : Int, pyInt (pyStripS content) = some n → n < 1 →
      read_ram_setting (some content) = (2, true)) ∧
    (pyInt (pyStripS content) = none → read_ram_setting (some content) = (2, true)) := by
  refine ⟨rfl, ?_, ?_, ?_⟩
  · intro n hn h1
    have hr : read_ram_setting (some content) = (n, false) := by
      show (match pyInt (pyStripS content) with
            | some v => if 1 ≤ v then ((v : Int), false) else ((2 : Int), true)
            | none => ((2 : Int), true)) = ((n : Int), false)
      rw [hn]
      exact if_pos h1
    refine ⟨hr, ?_⟩
    unfold launch_command
    rw [hr]
  · intro n hn h1
    show (match pyInt (pyStripS content) with
          | some v => if 1 ≤ v then ((v : Int), false) else ((2 : Int), true)
          | none => ((2 : Int), true)) = ((2 : Int), true)
    rw [hn]
    exact if_neg (by omega)
  · intro hn
    show (match pyInt (pyStripS content) with
          | some v => if 1 ≤ v then ((v : Int), false) else ((2 : Int), true)
          | none => ((2 : Int), true)) = ((2 : Int), true)
    rw [hn]

/-- Witness for C9: `"8"` yields 8 GB flags; `"0"` and `"abc"` fall back to
2 GB with a warning. -/
theorem ram_policy_witness :
    read_ram_setting (some "8") = (8, false) ∧
    launch_command (some "8") =
      ["java", "-Xmx8G", "-Xms8G", "-jar", "server.jar", "nogui"] ∧
    read_ram_setting (some "0") = (2, true) ∧
    read_ram_setting (some "abc") = (2, true) := by
  have h8 := (ram_policy "8").2.1 8 rfl (by norm_num)
  refine ⟨h8.1, ?_, (ram_policy "0").2.2.1 0 rfl (by norm_num),
    (ram_policy "abc").2.2.2 rfl⟩
  rw [h8.2]
  rfl

end ServerMaker
